import Mathlib

/-!
Verification of `piksi_tools/ardupilot/sbp_log_zipper.py`.

This file gives a shallow embedding of the SBP base/rover log zipper:
the GPS-time extraction function `extract_gpstime`, the two comparators
`compare_gpstime` and `compare_gpstime_brate`, the merge loop
`zip_json_generators` (modelled as a pure function from the two finite
input message lists to the emitted message list, with an explicit fuel
argument bounding the number of loop iterations, always instantiated
with a sufficient value), and the sender-based log splitter from `main`.
Theorems below establish the ordering, filtering, rate-gating, identity
rewriting and splitting properties of these functions.
-/

/-- GPS time as a `(wn, tow)` pair of natural numbers: week number and
time of week, the tuple produced by `extract_gpstime` in the source. -/
abbrev GpsTime := Nat × Nat

/-- Lexicographic order on `(wn, tow)` pairs: first by week number,
then by time of week. -/
def gpsLe (a b : GpsTime) : Prop :=
  a.1 < b.1 ∨ (a.1 = b.1 ∧ a.2 ≤ b.2)

instance (a b : GpsTime) : Decidable (gpsLe a b) :=
  inferInstanceAs (Decidable (a.1 < b.1 ∨ (a.1 = b.1 ∧ a.2 ≤ b.2)))

/-! Numeric SBP message type identifiers, as imported from the
`sbp.observation` module (`import sbp.observation as ob`).  Only their
distinctness (and the fact that `SBP_MSG_GLO_BIASES` is nonzero, which
line 100 of the source accidentally depends on) matters below. -/

def SBP_MSG_OBS : Nat := 0x4A
def SBP_MSG_OSR : Nat := 0x640
def SBP_MSG_EPHEMERIS_GPS : Nat := 0x8A
def SBP_MSG_EPHEMERIS_GPS_DEP_E : Nat := 0x81
def SBP_MSG_EPHEMERIS_GPS_DEP_F : Nat := 0x86
def SBP_MSG_EPHEMERIS_BDS : Nat := 0x89
def SBP_MSG_EPHEMERIS_GAL : Nat := 0x8D
def SBP_MSG_EPHEMERIS_SBAS_DEP_A : Nat := 0x82
def SBP_MSG_EPHEMERIS_GLO_DEP_A : Nat := 0x83
def SBP_MSG_EPHEMERIS_SBAS_DEP_B : Nat := 0x84
def SBP_MSG_EPHEMERIS_SBAS : Nat := 0x8C
def SBP_MSG_EPHEMERIS_GLO_DEP_B : Nat := 0x85
def SBP_MSG_EPHEMERIS_GLO_DEP_C : Nat := 0x87
def SBP_MSG_EPHEMERIS_GLO_DEP_D : Nat := 0x88
def SBP_MSG_EPHEMERIS_GLO : Nat := 0x8B
def SBP_MSG_EPHEMERIS_DEP_D : Nat := 0x80
def SBP_MSG_EPHEMERIS_DEP_A : Nat := 0x1A
def SBP_MSG_EPHEMERIS_DEP_B : Nat := 0x46
def SBP_MSG_EPHEMERIS_DEP_C : Nat := 0x47
def SBP_MSG_EPHEMERIS_QZSS : Nat := 0x8E
def SBP_MSG_BASE_POS_LLH : Nat := 0x44
def SBP_MSG_BASE_POS_ECEF : Nat := 0x48
def SBP_MSG_IONO : Nat := 0x90
def SBP_MSG_GLO_BIASES : Nat := 0x75

/-- The pass-through filter of the zipper (source lines 43-67), in
source order. -/
def msgs_filter : List Nat := [
  SBP_MSG_OBS,
  SBP_MSG_OSR,
  SBP_MSG_EPHEMERIS_GPS,
  SBP_MSG_EPHEMERIS_GPS_DEP_E,
  SBP_MSG_EPHEMERIS_GPS_DEP_F,
  SBP_MSG_EPHEMERIS_BDS,
  SBP_MSG_EPHEMERIS_GAL,
  SBP_MSG_EPHEMERIS_SBAS_DEP_A,
  SBP_MSG_EPHEMERIS_GLO_DEP_A,
  SBP_MSG_EPHEMERIS_SBAS_DEP_B,
  SBP_MSG_EPHEMERIS_SBAS,
  SBP_MSG_EPHEMERIS_GLO_DEP_B,
  SBP_MSG_EPHEMERIS_GLO_DEP_C,
  SBP_MSG_EPHEMERIS_GLO_DEP_D,
  SBP_MSG_EPHEMERIS_GLO,
  SBP_MSG_EPHEMERIS_DEP_D,
  SBP_MSG_EPHEMERIS_DEP_A,
  SBP_MSG_EPHEMERIS_DEP_B,
  SBP_MSG_EPHEMERIS_DEP_C,
  SBP_MSG_BASE_POS_LLH,
  SBP_MSG_BASE_POS_ECEF,
  SBP_MSG_IONO,
  SBP_MSG_GLO_BIASES
]

/-- The ephemeris-timestamped kinds (source lines 69-88), in source
order. -/
def msgs_filter_eph : List Nat := [
  SBP_MSG_EPHEMERIS_GPS,
  SBP_MSG_EPHEMERIS_GPS_DEP_E,
  SBP_MSG_EPHEMERIS_GPS_DEP_F,
  SBP_MSG_EPHEMERIS_BDS,
  SBP_MSG_EPHEMERIS_GAL,
  SBP_MSG_EPHEMERIS_SBAS,
  SBP_MSG_EPHEMERIS_SBAS_DEP_A,
  SBP_MSG_EPHEMERIS_SBAS_DEP_B,
  SBP_MSG_EPHEMERIS_QZSS,
  SBP_MSG_EPHEMERIS_GLO,
  SBP_MSG_EPHEMERIS_GLO_DEP_A,
  SBP_MSG_EPHEMERIS_GLO_DEP_B,
  SBP_MSG_EPHEMERIS_GLO_DEP_C,
  SBP_MSG_EPHEMERIS_GLO_DEP_D,
  SBP_MSG_EPHEMERIS_DEP_A,
  SBP_MSG_EPHEMERIS_DEP_B,
  SBP_MSG_EPHEMERIS_DEP_C,
  SBP_MSG_EPHEMERIS_DEP_D
]

/-- An SBP message as seen by the zipper: its type tag, its sender
identifier, and the three kind-dependent timestamp field paths read by
`extract_gpstime` (`msg.header.t`, `msg.common.toe`, `msg.t_nmct`). -/
structure Message where
  msg_type : Nat
  sender : Nat
  headerT : GpsTime
  commonToe : GpsTime
  tNmct : GpsTime
deriving DecidableEq

/-- `extract_gpstime` (source lines 90-101).  Mirrors the source
exactly, including the condition on line 100, whose last disjunct is
the truthiness test of the constant `ob.SBP_MSG_GLO_BIASES` (not a
comparison with `msg.msg_type`), and the implicit `None` result when
no branch fires. -/
def extract_gpstime (msg : Message) (last_gpstime : GpsTime := (0, 0)) :
    Option GpsTime :=
  if msg.msg_type = SBP_MSG_OBS ∨ msg.msg_type = SBP_MSG_OSR then
    some msg.headerT
  else if msg.msg_type ∈ msgs_filter_eph then
    some msg.commonToe
  else if msg.msg_type = SBP_MSG_IONO then
    some msg.tNmct
  else if msg.msg_type = SBP_MSG_BASE_POS_ECEF ∨
      msg.msg_type = SBP_MSG_BASE_POS_LLH ∨ SBP_MSG_GLO_BIASES ≠ 0 then
    some last_gpstime
  else
    none

/-- `compare_gpstime` (source lines 104-118): index of the earlier
`(wn, tow)` pair, with every tie (including the final all-equal case)
returning `0`. -/
def compare_gpstime (g0 g1 : GpsTime) : Nat :=
  if g0.1 < g1.1 then 0
  else if g0.1 > g1.1 then 1
  else if g0.2 < g1.2 then 0
  else if g0.2 > g1.2 then 1
  else 0

/-- `compare_gpstime_brate` (source lines 120-134): the base-side rate
gate. -/
def compare_gpstime_brate (g0 g1 : GpsTime) (brate : Nat) : Nat :=
  if g0.1 < g1.1 then 0
  else if g0.1 > g1.1 then 1
  else if g0.2 = g1.2 then 1
  else if g0.2 ≥ g1.2 + brate then 1
  else 0

/-- The three program points at which `zip_json_generators` invokes
`extract_gpstime`: line 164 (the base pull loop) and lines 202-203 (the
comparison step, base message first then rover message). -/
inductive Site where
  | pull
  | cmpBase
  | cmpRove
deriving DecidableEq

/-- The inner base pull loop (source lines 161-174): scan the base
stream, extracting the GPS time of each pulled message with the current
`last_gpstime` fallback, until a message passes both the kind filter
and the rate gate (that message has its sender rewritten to `0` and
`last_base_gpstime` is advanced to its extracted time) or the stream is
exhausted.  Returns the accepted message (if any), the unconsumed rest
of the stream, the updated `last_base_gpstime`, and the list of
extraction calls performed. -/
def fillBase (brate : Nat) (last lastBase : GpsTime) :
    List Message → Option Message × List Message × GpsTime × List (Site × Nat)
  | [] => (none, [], lastBase, [])
  | m :: rest =>
    let t := (extract_gpstime m last).getD (0, 0)
    if m.msg_type ∈ msgs_filter ∧ compare_gpstime_brate t lastBase brate = 1 then
      (some { m with sender := 0 }, rest, t, [(Site.pull, m.msg_type)])
    else
      let r := fillBase brate last lastBase rest
      (r.1, r.2.1, r.2.2.1, (Site.pull, m.msg_type) :: r.2.2.2)

/-- The inner rover pull loop (source lines 177-186): scan the rover
stream until a message with a truthy (nonzero) sender and a kind in the
pass-through filter is found, or the stream is exhausted.  No timestamp
extraction happens here. -/
def fillRove : List Message → Option Message × List Message
  | [] => (none, [])
  | m :: rest =>
    if m.sender ≠ 0 ∧ m.msg_type ∈ msgs_filter then (some m, rest)
    else fillRove rest

/-- Fill the base pending slot: the pull loop runs only when no base
message is already waiting (`while base_msg is None`). -/
def fillB (brate : Nat) (last lastBase : GpsTime) (pendB : Option Message)
    (base : List Message) :
    Option Message × List Message × GpsTime × List (Site × Nat) :=
  match pendB with
  | some b => (some b, base, lastBase, [])
  | none => fillBase brate last lastBase base

/-- Fill the rover pending slot: the pull loop runs only when no rover
message is already waiting (`while rove_msg is None`). -/
def fillR (pendR : Option Message) (rove : List Message) :
    Option Message × List Message :=
  match pendR with
  | some r => (some r, rove)
  | none => fillRove rove

/-- One execution of the `while True` merge loop of
`zip_json_generators` (source lines 158-213), as a pure function.
State: the unconsumed suffixes of the two streams, the two pending
slots, `last_gpstime` and `last_base_gpstime`.  Returns the emitted
messages in emission order together with the log of all
`extract_gpstime` calls made inside the loop.  The fuel argument only
bounds the iteration count; `zip_json_generators` below always supplies
a sufficient amount. -/
def zipGo (brate : Nat) :
    Nat → List Message → List Message → Option Message → Option Message →
    GpsTime → GpsTime → List Message × List (Site × Nat)
  | 0, _, _, _, _, _, _ => ([], [])
  | Nat.succ fuel, base, rove, pendB, pendR, last, lastBase =>
    let fb := fillB brate last lastBase pendB base
    let fr := fillR pendR rove
    match fb.1, fr.1 with
    | none, none => ([], fb.2.2.2)
    | none, some r =>
      let next := zipGo brate fuel fb.2.1 fr.2 none none last fb.2.2.1
      (r :: next.1, fb.2.2.2 ++ next.2)
    | some b, none =>
      let next := zipGo brate fuel fb.2.1 fr.2 none none last fb.2.2.1
      (b :: next.1, fb.2.2.2 ++ next.2)
    | some b, some r =>
      let bt := (extract_gpstime b last).getD (0, 0)
      let rt := (extract_gpstime r last).getD (0, 0)
      if compare_gpstime rt bt = 1 then
        let next := zipGo brate fuel fb.2.1 fr.2 none (some r) bt fb.2.2.1
        (b :: next.1,
          fb.2.2.2 ++ (Site.cmpBase, b.msg_type) :: (Site.cmpRove, r.msg_type) :: next.2)
      else
        let next := zipGo brate fuel fb.2.1 fr.2 (some b) none rt fb.2.2.1
        (r :: next.1,
          fb.2.2.2 ++ (Site.cmpBase, b.msg_type) :: (Site.cmpRove, r.msg_type) :: next.2)

/-- `zip_json_generators` (source lines 140-213): the sequence of
messages it sends to `emit_fn`, in emission order, for the two finite
input streams.  Both pending slots start empty and both `last`
times start at `(0, 0)`. -/
def zip_json_generators (brate : Nat) (base_gen rove_gen : List Message) :
    List Message :=
  (zipGo brate (base_gen.length + rove_gen.length + 1)
    base_gen rove_gen none none (0, 0) (0, 0)).1

/-- The log of `extract_gpstime` invocations performed inside the merge
loop of `zip_json_generators`, in call order, each tagged with its call
site and the type tag of the message it was applied to. -/
def zipCalls (brate : Nat) (base_gen rove_gen : List Message) :
    List (Site × Nat) :=
  (zipGo brate (base_gen.length + rove_gen.length + 1)
    base_gen rove_gen none none (0, 0) (0, 0)).2

/-- The "last known time" fallback-threading rule for a message
sequence: each message's GPS time is extracted with the previous
message's extracted time as the fallback, starting from `c`. -/
def threadTimes (c : GpsTime) : List Message → List GpsTime
  | [] => []
  | m :: rest =>
    let t := (extract_gpstime m c).getD c
    t :: threadTimes t rest

/-- The intrinsic timestamp a message carries, independent of any
fallback: self-timestamped kinds (`header.t`), ephemeris kinds
(`common.toe`) and the ionosphere kind (`t_nmct`); `none` for every
other kind, for which `extract_gpstime` returns its fallback. -/
def intrinsicTime (msg : Message) : Option GpsTime :=
  if msg.msg_type = SBP_MSG_OBS ∨ msg.msg_type = SBP_MSG_OSR then
    some msg.headerT
  else if msg.msg_type ∈ msgs_filter_eph then
    some msg.commonToe
  else if msg.msg_type = SBP_MSG_IONO then
    some msg.tNmct
  else
    none

/-- The subsequence of the base stream that survives the kind filter
and the rate gate of the base pull loop (lines 161-174), with the
original sender values, when `last_gpstime` stays fixed at `last`
(which is the case whenever the rover side never contributes, since
only the comparison step advances `last_gpstime`). -/
def baseKept (brate : Nat) (last : GpsTime) :
    GpsTime → List Message → List Message
  | _, [] => []
  | lastBase, m :: rest =>
    let t := (extract_gpstime m last).getD (0, 0)
    if m.msg_type ∈ msgs_filter ∧ compare_gpstime_brate t lastBase brate = 1 then
      m :: baseKept brate last t rest
    else
      baseKept brate last lastBase rest

/-- The log splitter from `main` (source lines 255-268): route each
message with sender `0` to the base output and every other message to
the rover output, preserving record order within each output. -/
def split_log : List Message → List Message × List Message
  | [] => ([], [])
  | m :: rest =>
    let p := split_log rest
    if m.sender = 0 then (m :: p.1, p.2) else (p.1, m :: p.2)

/-- An observation message with week number `w`, time of week `tow` and
sender `s`. -/
def mkObs (w tow s : Nat) : Message :=
  { msg_type := SBP_MSG_OBS, sender := s, headerT := (w, tow),
    commonToe := (0, 0), tNmct := (0, 0) }

/-- A message whose kind is in none of the recognized sets. -/
def unkMsg : Message :=
  { msg_type := 1234, sender := 5, headerT := (9, 9),
    commonToe := (8, 8), tNmct := (7, 7) }

/-! ### Basic facts about the order and the comparators -/

theorem gpsLe_refl (a : GpsTime) : gpsLe a a := Or.inr ⟨rfl, le_refl _⟩

theorem gpsLe_trans {a b c : GpsTime} (h1 : gpsLe a b) (h2 : gpsLe b c) :
    gpsLe a c := by
  unfold gpsLe at *; omega

theorem gpsLe_of_not {a b : GpsTime} (h : ¬ gpsLe a b) : gpsLe b a := by
  unfold gpsLe at *; omega

theorem gpsLe_zero (t : GpsTime) : gpsLe (0, 0) t := by
  unfold gpsLe; omega

theorem compare_gpstime_eq_one_iff (a b : GpsTime) :
    compare_gpstime a b = 1 ↔ ¬ gpsLe a b := by
  obtain ⟨a1, a2⟩ := a
  obtain ⟨b1, b2⟩ := b
  unfold compare_gpstime gpsLe
  split_ifs <;> simp_all <;> omega

/-- `extract_gpstime` never returns `None`: the condition on line 100
ends in the truthiness of the constant `ob.SBP_MSG_GLO_BIASES`, which
is nonzero, so the fallback branch catches every message kind not
recognized by an earlier branch. -/
theorem extract_gpstime_isSome (m : Message) (c : GpsTime) :
    (extract_gpstime m c).isSome = true := by
  unfold extract_gpstime
  split_ifs with h1 h2 h3 h4 <;> simp_all [SBP_MSG_GLO_BIASES]

theorem extract_getD (m : Message) (c d : GpsTime) :
    (extract_gpstime m c).getD d = (intrinsicTime m).getD c := by
  unfold extract_gpstime intrinsicTime
  split_ifs with h1 h2 h3 h4 <;> simp_all [SBP_MSG_GLO_BIASES]

theorem intrinsicTime_sender_zero (m : Message) :
    intrinsicTime { m with sender := 0 } = intrinsicTime m := rfl

/-! ### Chains of GPS times -/

theorem chain'_cons_of_le {a b : GpsTime} {l : List GpsTime}
    (hab : gpsLe b a) (h : List.Chain' gpsLe (a :: l)) :
    List.Chain' gpsLe (b :: l) := by
  cases l with
  | nil => exact List.chain'_singleton _
  | cons x xs =>
    rw [List.chain'_cons] at h ⊢
    exact ⟨gpsLe_trans hab h.1, h.2⟩

theorem chain'_cons_append_right {a : GpsTime} {l1 l2 : List GpsTime}
    (h : List.Chain' gpsLe (a :: (l1 ++ l2))) :
    List.Chain' gpsLe (a :: l2) := by
  induction l1 generalizing a with
  | nil => exact h
  | cons x xs ih =>
    rw [List.cons_append, List.chain'_cons] at h
    exact chain'_cons_of_le h.1 (ih h.2)

theorem threadTimes_cons (c : GpsTime) (m : Message) (rest : List Message) :
    threadTimes c (m :: rest) =
      ((intrinsicTime m).getD c) :: threadTimes ((intrinsicTime m).getD c) rest := by
  simp only [threadTimes, extract_getD]

/-- Under fallback threading, a message sequence is non-decreasing from
`c` exactly when the sequence of intrinsic timestamps it carries is
non-decreasing from `c`: inherited-timestamp messages repeat the
current fallback and impose no constraint. -/
theorem chain'_threadTimes_iff (l : List Message) (c : GpsTime) :
    List.Chain' gpsLe (c :: threadTimes c l) ↔
      List.Chain' gpsLe (c :: l.filterMap intrinsicTime) := by
  induction l generalizing c with
  | nil => simp [threadTimes]
  | cons m rest ih =>
    rw [threadTimes_cons]
    cases hm : intrinsicTime m with
    | none =>
      simp only [hm, Option.getD_none, List.filterMap_cons_none hm]
      rw [List.chain'_cons, ih]
      refine ⟨fun h => h.2, fun h => ⟨gpsLe_refl c, h⟩⟩
    | some t =>
      simp only [hm, Option.getD_some, List.filterMap_cons_some hm]
      rw [List.chain'_cons, List.chain'_cons, ih]

/-! ### The pull loops -/


theorem fillBase_nil (brate : Nat) (last lastBase : GpsTime) :
    fillBase brate last lastBase [] = (none, [], lastBase, []) := rfl

theorem fillBase_cons (brate : Nat) (last lastBase : GpsTime)
    (m : Message) (rest : List Message) :
    fillBase brate last lastBase (m :: rest) =
      if m.msg_type ∈ msgs_filter ∧
          compare_gpstime_brate ((extract_gpstime m last).getD (0, 0)) lastBase brate = 1 then
        (some { m with sender := 0 }, rest, (extract_gpstime m last).getD (0, 0),
          [(Site.pull, m.msg_type)])
      else
        ((fillBase brate last lastBase rest).1,
         (fillBase brate last lastBase rest).2.1,
         (fillBase brate last lastBase rest).2.2.1,
         (Site.pull, m.msg_type) :: (fillBase brate last lastBase rest).2.2.2) := rfl

theorem fillRove_nil : fillRove [] = (none, []) := rfl

theorem fillRove_cons (m : Message) (rest : List Message) :
    fillRove (m :: rest) =
      if m.sender ≠ 0 ∧ m.msg_type ∈ msgs_filter then (some m, rest)
      else fillRove rest := rfl

/-- Exactly what the base pull loop does to the stream: either it
consumes everything and rejects it all, or it rejects a prefix,
accepts the next message (rewriting its sender to `0` and advancing
`last_base_gpstime` to its extracted time) and leaves the rest
unconsumed. -/
theorem fillBase_cases (brate : Nat) (last lastBase : GpsTime)
    (l : List Message) :
    ((fillBase brate last lastBase l).1 = none ∧
     (fillBase brate last lastBase l).2.1 = [] ∧
     (fillBase brate last lastBase l).2.2.1 = lastBase ∧
     ∀ x ∈ l, ¬(x.msg_type ∈ msgs_filter ∧
        compare_gpstime_brate ((extract_gpstime x last).getD (0, 0)) lastBase brate = 1))
  ∨ ∃ pre m rest, l = pre ++ m :: rest ∧
      (∀ x ∈ pre, ¬(x.msg_type ∈ msgs_filter ∧
        compare_gpstime_brate ((extract_gpstime x last).getD (0, 0)) lastBase brate = 1)) ∧
      m.msg_type ∈ msgs_filter ∧
      compare_gpstime_brate ((extract_gpstime m last).getD (0, 0)) lastBase brate = 1 ∧
      (fillBase brate last lastBase l).1 = some { m with sender := 0 } ∧
      (fillBase brate last lastBase l).2.1 = rest ∧
      (fillBase brate last lastBase l).2.2.1 = (extract_gpstime m last).getD (0, 0) := by
  induction l with
  | nil => left; rw [fillBase_nil]; simp
  | cons m rest ih =>
    by_cases hacc : m.msg_type ∈ msgs_filter ∧
        compare_gpstime_brate ((extract_gpstime m last).getD (0, 0)) lastBase brate = 1
    · right
      refine ⟨[], m, rest, by simp, by simp, hacc.1, hacc.2, ?_, ?_, ?_⟩ <;>
        rw [fillBase_cons, if_pos hacc]
    · rcases ih with ⟨h1, h2, h3, h4⟩ | ⟨pre, m', rest', heq, hpre, hm1, hm2, h1, h2, h3⟩
      · left
        refine ⟨?_, ?_, ?_, ?_⟩
        · rw [fillBase_cons, if_neg hacc]; exact h1
        · rw [fillBase_cons, if_neg hacc]; exact h2
        · rw [fillBase_cons, if_neg hacc]; exact h3
        · intro x hx
          rcases hx with _ | hx
          · exact hacc
          · exact h4 x (by assumption)
      · right
        refine ⟨m :: pre, m', rest', by simp [heq], ?_, hm1, hm2, ?_, ?_, ?_⟩
        · intro x hx
          rcases hx with _ | hx
          · exact hacc
          · exact hpre x (by assumption)
        · rw [fillBase_cons, if_neg hacc]; exact h1
        · rw [fillBase_cons, if_neg hacc]; exact h2
        · rw [fillBase_cons, if_neg hacc]; exact h3

theorem fillRove_cases (l : List Message) :
    ((fillRove l).1 = none ∧ (fillRove l).2 = [] ∧
     ∀ x ∈ l, ¬(x.sender ≠ 0 ∧ x.msg_type ∈ msgs_filter))
  ∨ ∃ pre m rest, l = pre ++ m :: rest ∧
      (∀ x ∈ pre, ¬(x.sender ≠ 0 ∧ x.msg_type ∈ msgs_filter)) ∧
      m.sender ≠ 0 ∧ m.msg_type ∈ msgs_filter ∧
      (fillRove l).1 = some m ∧ (fillRove l).2 = rest := by
  induction l with
  | nil => left; rw [fillRove_nil]; simp
  | cons m rest ih =>
    by_cases hacc : m.sender ≠ 0 ∧ m.msg_type ∈ msgs_filter
    · right
      refine ⟨[], m, rest, by simp, by simp, hacc.1, hacc.2, ?_, ?_⟩ <;>
        rw [fillRove_cons, if_pos hacc]
    · rcases ih with ⟨h1, h2, h3⟩ | ⟨pre, m', rest', heq, hpre, hm1, hm2, h1, h2⟩
      · left
        refine ⟨?_, ?_, ?_⟩
        · rw [fillRove_cons, if_neg hacc]; exact h1
        · rw [fillRove_cons, if_neg hacc]; exact h2
        · intro x hx
          rcases hx with _ | hx
          · exact hacc
          · exact h3 x (by assumption)
      · right
        refine ⟨m :: pre, m', rest', by simp [heq], ?_, hm1, hm2, ?_, ?_⟩
        · intro x hx
          rcases hx with _ | hx
          · exact hacc
          · exact hpre x (by assumption)
        · rw [fillRove_cons, if_neg hacc]; exact h1
        · rw [fillRove_cons, if_neg hacc]; exact h2

theorem fillBase_log (brate : Nat) (last lastBase : GpsTime)
    (l : List Message) :
    ∀ c ∈ (fillBase brate last lastBase l).2.2.2, c.1 = Site.pull := by
  induction l with
  | nil => rw [fillBase_nil]; simp
  | cons m rest ih =>
    by_cases hacc : m.msg_type ∈ msgs_filter ∧
        compare_gpstime_brate ((extract_gpstime m last).getD (0, 0)) lastBase brate = 1
    · rw [fillBase_cons, if_pos hacc]; simp
    · rw [fillBase_cons, if_neg hacc]
      intro c hc
      rcases hc with _ | hc
      · rfl
      · exact ih c (by assumption)

/-! ### Step equations for the merge loop -/

theorem zipGo_zero (brate : Nat) (base rove : List Message)
    (pendB pendR : Option Message) (last lastBase : GpsTime) :
    zipGo brate 0 base rove pendB pendR last lastBase = ([], []) := rfl

theorem zipGo_succ_none_none (brate fuel : Nat) (base rove : List Message)
    (pendB pendR : Option Message) (last lastBase : GpsTime)
    (hb : (fillB brate last lastBase pendB base).1 = none)
    (hr : (fillR pendR rove).1 = none) :
    zipGo brate (fuel + 1) base rove pendB pendR last lastBase =
      ([], (fillB brate last lastBase pendB base).2.2.2) := by
  unfold zipGo
  simp only [hb, hr]

theorem zipGo_succ_none_some (brate fuel : Nat) (base rove : List Message)
    (pendB pendR : Option Message) (last lastBase : GpsTime) (r : Message)
    (hb : (fillB brate last lastBase pendB base).1 = none)
    (hr : (fillR pendR rove).1 = some r) :
    zipGo brate (fuel + 1) base rove pendB pendR last lastBase =
      (r :: (zipGo brate fuel (fillB brate last lastBase pendB base).2.1
              (fillR pendR rove).2 none none last
              (fillB brate last lastBase pendB base).2.2.1).1,
       (fillB brate last lastBase pendB base).2.2.2 ++
         (zipGo brate fuel (fillB brate last lastBase pendB base).2.1
            (fillR pendR rove).2 none none last
            (fillB brate last lastBase pendB base).2.2.1).2) := by
  conv_lhs => rw [zipGo]
  simp only [hb, hr]

theorem zipGo_succ_some_none (brate fuel : Nat) (base rove : List Message)
    (pendB pendR : Option Message) (last lastBase : GpsTime) (b : Message)
    (hb : (fillB brate last lastBase pendB base).1 = some b)
    (hr : (fillR pendR rove).1 = none) :
    zipGo brate (fuel + 1) base rove pendB pendR last lastBase =
      (b :: (zipGo brate fuel (fillB brate last lastBase pendB base).2.1
              (fillR pendR rove).2 none none last
              (fillB brate last lastBase pendB base).2.2.1).1,
       (fillB brate last lastBase pendB base).2.2.2 ++
         (zipGo brate fuel (fillB brate last lastBase pendB base).2.1
            (fillR pendR rove).2 none none last
            (fillB brate last lastBase pendB base).2.2.1).2) := by
  conv_lhs => rw [zipGo]
  simp only [hb, hr]

theorem zipGo_succ_emit_base (brate fuel : Nat) (base rove : List Message)
    (pendB pendR : Option Message) (last lastBase : GpsTime) (b r : Message)
    (hb : (fillB brate last lastBase pendB base).1 = some b)
    (hr : (fillR pendR rove).1 = some r)
    (hc : compare_gpstime ((extract_gpstime r last).getD (0, 0))
            ((extract_gpstime b last).getD (0, 0)) = 1) :
    zipGo brate (fuel + 1) base rove pendB pendR last lastBase =
      (b :: (zipGo brate fuel (fillB brate last lastBase pendB base).2.1
              (fillR pendR rove).2 none (some r)
              ((extract_gpstime b last).getD (0, 0))
              (fillB brate last lastBase pendB base).2.2.1).1,
       (fillB brate last lastBase pendB base).2.2.2 ++
         (Site.cmpBase, b.msg_type) :: (Site.cmpRove, r.msg_type) ::
         (zipGo brate fuel (fillB brate last lastBase pendB base).2.1
            (fillR pendR rove).2 none (some r)
            ((extract_gpstime b last).getD (0, 0))
            (fillB brate last lastBase pendB base).2.2.1).2) := by
  conv_lhs => rw [zipGo]
  simp only [hb, hr]
  rw [if_pos hc]

theorem zipGo_succ_emit_rove (brate fuel : Nat) (base rove : List Message)
    (pendB pendR : Option Message) (last lastBase : GpsTime) (b r : Message)
    (hb : (fillB brate last lastBase pendB base).1 = some b)
    (hr : (fillR pendR rove).1 = some r)
    (hc : ¬ compare_gpstime ((extract_gpstime r last).getD (0, 0))
            ((extract_gpstime b last).getD (0, 0)) = 1) :
    zipGo brate (fuel + 1) base rove pendB pendR last lastBase =
      (r :: (zipGo brate fuel (fillB brate last lastBase pendB base).2.1
              (fillR pendR rove).2 (some b) none
              ((extract_gpstime r last).getD (0, 0))
              (fillB brate last lastBase pendB base).2.2.1).1,
       (fillB brate last lastBase pendB base).2.2.2 ++
         (Site.cmpBase, b.msg_type) :: (Site.cmpRove, r.msg_type) ::
         (zipGo brate fuel (fillB brate last lastBase pendB base).2.1
            (fillR pendR rove).2 (some b) none
            ((extract_gpstime r last).getD (0, 0))
            (fillB brate last lastBase pendB base).2.2.1).2) := by
  conv_lhs => rw [zipGo]
  simp only [hb, hr]
  rw [if_neg hc]

/-! ### Exhaustion facts about the pull loops -/

theorem fillB_eq_none (brate : Nat) (last lastBase : GpsTime)
    (pendB : Option Message) (base : List Message)
    (h : (fillB brate last lastBase pendB base).1 = none) :
    (fillB brate last lastBase pendB base).2.1 = [] := by
  cases pendB with
  | some b => exact absurd h (by simp [fillB])
  | none =>
    rcases fillBase_cases brate last lastBase base with ⟨_, h2, _, _⟩ | ⟨_, _, _, _, _, _, _, h1, _, _⟩
    · exact h2
    · rw [fillB] at h; rw [h1] at h; exact absurd h (by simp)

theorem fillR_eq_none (pendR : Option Message) (rove : List Message)
    (h : (fillR pendR rove).1 = none) :
    (fillR pendR rove).2 = [] := by
  cases pendR with
  | some r => exact absurd h (by simp [fillR])
  | none =>
    rcases fillRove_cases rove with ⟨_, h2, _⟩ | ⟨_, _, _, _, _, _, _, h1, _⟩
    · exact h2
    · rw [fillR] at h; rw [h1] at h; exact absurd h (by simp)

/-! ### The pull loops preserve sortedness of the intrinsic timestamps -/

theorem fillB_chain (brate : Nat) (last lastBase : GpsTime)
    (pendB : Option Message) (base : List Message) (g : GpsTime)
    (h : List.Chain' gpsLe (g :: (pendB.toList ++ base).filterMap intrinsicTime)) :
    List.Chain' gpsLe
      (g :: ((fillB brate last lastBase pendB base).1.toList ++
             (fillB brate last lastBase pendB base).2.1).filterMap intrinsicTime) := by
  cases pendB with
  | some b => exact h
  | none =>
    rcases fillBase_cases brate last lastBase base with
      ⟨h1, h2, _, _⟩ | ⟨pre, m, rest, heq, _, _, _, h1, h2, _⟩
    · rw [fillB, h1, h2]
      exact List.chain'_singleton _
    · rw [fillB, h1, h2]
      rw [Option.toList_none, List.nil_append, heq, List.filterMap_append] at h
      have h' := chain'_cons_append_right h
      simpa [List.filterMap_cons, intrinsicTime_sender_zero] using h'

theorem fillR_chain (pendR : Option Message) (rove : List Message) (g : GpsTime)
    (h : List.Chain' gpsLe (g :: (pendR.toList ++ rove).filterMap intrinsicTime)) :
    List.Chain' gpsLe
      (g :: ((fillR pendR rove).1.toList ++
             (fillR pendR rove).2).filterMap intrinsicTime) := by
  cases pendR with
  | some r => exact h
  | none =>
    rcases fillRove_cases rove with
      ⟨h1, h2, _⟩ | ⟨pre, m, rest, heq, _, _, _, h1, h2⟩
    · rw [fillR, h1, h2]
      exact List.chain'_singleton _
    · rw [fillR, h1, h2]
      rw [Option.toList_none, List.nil_append, heq, List.filterMap_append] at h
      exact chain'_cons_append_right h

/-! ### Monotonicity of the merge -/

/-- Main invariant argument for the merge loop: if the intrinsic
timestamps still to be consumed on each side (pending slot first) are
non-decreasing starting from `g`, and `last_gpstime ≤ g`, then the
emitted sequence is non-decreasing from `g` under fallback
threading. -/
theorem zip_mono_aux (brate : Nat) (fuel : Nat) :
    ∀ (base rove : List Message) (pendB pendR : Option Message)
      (last lastBase g : GpsTime),
      gpsLe last g →
      List.Chain' gpsLe (g :: (pendB.toList ++ base).filterMap intrinsicTime) →
      List.Chain' gpsLe (g :: (pendR.toList ++ rove).filterMap intrinsicTime) →
      List.Chain' gpsLe
        (g :: threadTimes g (zipGo brate fuel base rove pendB pendR last lastBase).1) := by
  induction fuel with
  | zero =>
    intro base rove pendB pendR last lastBase g _ _ _
    rw [zipGo_zero]
    exact List.chain'_singleton _
  | succ fuel ih =>
    intro base rove pendB pendR last lastBase g hlg hB hR
    have hB' := fillB_chain brate last lastBase pendB base g hB
    have hR' := fillR_chain pendR rove g hR
    cases hb1 : (fillB brate last lastBase pendB base).1 with
    | none =>
      have hbrest := fillB_eq_none brate last lastBase pendB base hb1
      cases hr1 : (fillR pendR rove).1 with
      | none =>
        rw [zipGo_succ_none_none brate fuel base rove pendB pendR last lastBase hb1 hr1]
        exact List.chain'_singleton _
      | some r =>
        rw [hr1, Option.toList_some, List.singleton_append] at hR'
        rw [zipGo_succ_none_some brate fuel base rove pendB pendR last lastBase r hb1 hr1,
          threadTimes_cons]
        cases hir : intrinsicTime r with
        | none =>
          rw [List.filterMap_cons_none hir] at hR'
          simp only [hir, Option.getD_none]
          refine List.chain'_cons.mpr ⟨gpsLe_refl g, ?_⟩
          apply ih
          · exact hlg
          · rw [hbrest]; simp
          · simpa using hR'
        | some u =>
          rw [List.filterMap_cons_some hir] at hR'
          have hgu : gpsLe g u := (List.chain'_cons.mp hR').1
          have hRtail := (List.chain'_cons.mp hR').2
          simp only [hir, Option.getD_some]
          refine List.chain'_cons.mpr ⟨hgu, ?_⟩
          apply ih
          · exact gpsLe_trans hlg hgu
          · rw [hbrest]; simp
          · simpa using hRtail
    | some b =>
      rw [hb1, Option.toList_some, List.singleton_append] at hB'
      cases hr1 : (fillR pendR rove).1 with
      | none =>
        have hrrest := fillR_eq_none pendR rove hr1
        rw [zipGo_succ_some_none brate fuel base rove pendB pendR last lastBase b hb1 hr1,
          threadTimes_cons]
        cases hib : intrinsicTime b with
        | none =>
          rw [List.filterMap_cons_none hib] at hB'
          simp only [hib, Option.getD_none]
          refine List.chain'_cons.mpr ⟨gpsLe_refl g, ?_⟩
          apply ih
          · exact hlg
          · simpa using hB'
          · rw [hrrest]; simp
        | some t =>
          rw [List.filterMap_cons_some hib] at hB'
          have hgt : gpsLe g t := (List.chain'_cons.mp hB').1
          have hBtail := (List.chain'_cons.mp hB').2
          simp only [hib, Option.getD_some]
          refine List.chain'_cons.mpr ⟨hgt, ?_⟩
          apply ih
          · exact gpsLe_trans hlg hgt
          · simpa using hBtail
          · rw [hrrest]; simp
      | some r =>
        rw [hr1, Option.toList_some, List.singleton_append] at hR'
        have hbt : (extract_gpstime b last).getD (0, 0) = (intrinsicTime b).getD last :=
          extract_getD b last (0, 0)
        have hrt : (extract_gpstime r last).getD (0, 0) = (intrinsicTime r).getD last :=
          extract_getD r last (0, 0)
        by_cases hc : compare_gpstime ((extract_gpstime r last).getD (0, 0))
            ((extract_gpstime b last).getD (0, 0)) = 1
        · have hnot : ¬ gpsLe ((extract_gpstime r last).getD (0, 0))
              ((extract_gpstime b last).getD (0, 0)) :=
            (compare_gpstime_eq_one_iff _ _).mp hc
          rw [zipGo_succ_emit_base brate fuel base rove pendB pendR last lastBase b r hb1 hr1 hc,
            threadTimes_cons]
          cases hib : intrinsicTime b with
          | some t =>
            rw [List.filterMap_cons_some hib] at hB'
            have hgt : gpsLe g t := (List.chain'_cons.mp hB').1
            have hBtail := (List.chain'_cons.mp hB').2
            have hbtt : (extract_gpstime b last).getD (0, 0) = t := by rw [hbt, hib, Option.getD_some]
            simp only [hib, Option.getD_some]
            refine List.chain'_cons.mpr ⟨hgt, ?_⟩
            rw [hbtt]
            apply ih
            · exact gpsLe_refl t
            · simpa using hBtail
            · rw [Option.toList_some, List.singleton_append]
              cases hir : intrinsicTime r with
              | some u =>
                have hru : (extract_gpstime r last).getD (0, 0) = u := by rw [hrt, hir, Option.getD_some]
                rw [hru, hbtt] at hnot
                rw [List.filterMap_cons_some hir] at hR' ⊢
                exact List.chain'_cons.mpr ⟨gpsLe_of_not hnot, (List.chain'_cons.mp hR').2⟩
              | none =>
                have hrl : (extract_gpstime r last).getD (0, 0) = last := by rw [hrt, hir, Option.getD_none]
                rw [hrl, hbtt] at hnot
                rw [List.filterMap_cons_none hir] at hR' ⊢
                exact chain'_cons_of_le (gpsLe_trans (gpsLe_of_not hnot) hlg) hR'
          | none =>
            have hbl : (extract_gpstime b last).getD (0, 0) = last := by rw [hbt, hib, Option.getD_none]
            rw [List.filterMap_cons_none hib] at hB'
            simp only [hib, Option.getD_none]
            refine List.chain'_cons.mpr ⟨gpsLe_refl g, ?_⟩
            rw [hbl]
            apply ih
            · exact hlg
            · simpa using hB'
            · rw [Option.toList_some, List.singleton_append]; exact hR'
        · have hle : gpsLe ((extract_gpstime r last).getD (0, 0))
              ((extract_gpstime b last).getD (0, 0)) :=
            not_not.mp (fun hn => hc ((compare_gpstime_eq_one_iff _ _).mpr hn))
          rw [zipGo_succ_emit_rove brate fuel base rove pendB pendR last lastBase b r hb1 hr1 hc,
            threadTimes_cons]
          cases hir : intrinsicTime r with
          | some u =>
            rw [List.filterMap_cons_some hir] at hR'
            have hgu : gpsLe g u := (List.chain'_cons.mp hR').1
            have hRtail := (List.chain'_cons.mp hR').2
            have hru : (extract_gpstime r last).getD (0, 0) = u := by rw [hrt, hir, Option.getD_some]
            simp only [hir, Option.getD_some]
            refine List.chain'_cons.mpr ⟨hgu, ?_⟩
            rw [hru]
            apply ih
            · exact gpsLe_refl u
            · rw [Option.toList_some, List.singleton_append]
              cases hib : intrinsicTime b with
              | some t =>
                have hbtt : (extract_gpstime b last).getD (0, 0) = t := by rw [hbt, hib, Option.getD_some]
                rw [hru, hbtt] at hle
                rw [List.filterMap_cons_some hib] at hB' ⊢
                exact List.chain'_cons.mpr ⟨hle, (List.chain'_cons.mp hB').2⟩
              | none =>
                have hbl : (extract_gpstime b last).getD (0, 0) = last := by rw [hbt, hib, Option.getD_none]
                rw [hru, hbl] at hle
                rw [List.filterMap_cons_none hib] at hB' ⊢
                exact chain'_cons_of_le (gpsLe_trans hle hlg) hB'
            · simpa using hRtail
          | none =>
            have hrl : (extract_gpstime r last).getD (0, 0) = last := by rw [hrt, hir, Option.getD_none]
            rw [List.filterMap_cons_none hir] at hR'
            simp only [hir, Option.getD_none]
            refine List.chain'_cons.mpr ⟨gpsLe_refl g, ?_⟩
            rw [hrl]
            apply ih
            · exact hlg
            · rw [Option.toList_some, List.singleton_append]; exact hB'
            · simpa using hR'

theorem chain'_cons_zero (l : List GpsTime) (h : List.Chain' gpsLe l) :
    List.Chain' gpsLe ((0, 0) :: l) :=
  List.chain'_cons'.mpr ⟨fun x _ => gpsLe_zero x, h⟩

/-- C1.  For every pair of finite input sequences whose own extracted
GpsTime values (threaded from `(0, 0)`) are individually
non-decreasing, the sequence emitted by `zip_json_generators` has
non-decreasing extracted GpsTime under the same fallback-threading
rule, for every base rate setting. -/
theorem zip_json_generators_monotone (brate : Nat) (base rove : List Message)
    (hbase : List.Chain' gpsLe (threadTimes (0, 0) base))
    (hrove : List.Chain' gpsLe (threadTimes (0, 0) rove)) :
    List.Chain' gpsLe (threadTimes (0, 0) (zip_json_generators brate base rove)) := by
  have hb := (chain'_threadTimes_iff base (0, 0)).mp (chain'_cons_zero _ hbase)
  have hr := (chain'_threadTimes_iff rove (0, 0)).mp (chain'_cons_zero _ hrove)
  have hmain := zip_mono_aux brate (base.length + rove.length + 1) base rove
    none none (0, 0) (0, 0) (0, 0) (gpsLe_refl _) (by simpa using hb) (by simpa using hr)
  rw [zip_json_generators]
  exact hmain.tail

/-- Executable check that a list of GPS times is non-decreasing. -/
def sortedTimes : List GpsTime → Bool
  | [] => true
  | [_] => true
  | a :: b :: l => decide (gpsLe a b) && sortedTimes (b :: l)

theorem sortedTimes_iff (l : List GpsTime) :
    sortedTimes l = true ↔ List.Chain' gpsLe l := by
  induction l with
  | nil => simp [sortedTimes]
  | cons a l ih =>
    cases l with
    | nil => simp [sortedTimes]
    | cons b l' =>
      rw [sortedTimes, Bool.and_eq_true, decide_eq_true_eq, List.chain'_cons, ih]

/-- Witness for C1 at a concrete pair of sorted inputs. -/
theorem zip_json_generators_monotone_witness :
    List.Chain' gpsLe (threadTimes (0, 0) [mkObs 1 10 7, mkObs 1 30 7]) ∧
    List.Chain' gpsLe (threadTimes (0, 0) [mkObs 1 20 9]) ∧
    List.Chain' gpsLe (threadTimes (0, 0)
      (zip_json_generators 20 [mkObs 1 10 7, mkObs 1 30 7] [mkObs 1 20 9])) :=
  ⟨(sortedTimes_iff _).mp (by decide), (sortedTimes_iff _).mp (by decide),
    zip_json_generators_monotone 20 [mkObs 1 10 7, mkObs 1 30 7] [mkObs 1 20 9]
      ((sortedTimes_iff _).mp (by decide)) ((sortedTimes_iff _).mp (by decide))⟩

/-! ### Filtering invariants -/

theorem fillB_some_mem (brate : Nat) (last lastBase : GpsTime)
    (pendB : Option Message) (base : List Message) (b : Message)
    (hpend : ∀ x, pendB = some x → x.msg_type ∈ msgs_filter)
    (h : (fillB brate last lastBase pendB base).1 = some b) :
    b.msg_type ∈ msgs_filter := by
  cases pendB with
  | some x =>
    have hx : some x = some b := h
    exact Option.some.inj hx ▸ hpend x rfl
  | none =>
    rcases fillBase_cases brate last lastBase base with
      ⟨h1, _, _, _⟩ | ⟨pre, m, rest, _, _, hm1, _, h1, _, _⟩
    · rw [fillB, h1] at h
      exact absurd h (by simp)
    · rw [fillB, h1] at h
      have : ({ m with sender := 0 } : Message) = b := Option.some.inj h
      rw [← this]
      exact hm1

theorem fillR_some_mem (pendR : Option Message) (rove : List Message) (r : Message)
    (hpend : ∀ x, pendR = some x → x.msg_type ∈ msgs_filter)
    (h : (fillR pendR rove).1 = some r) :
    r.msg_type ∈ msgs_filter := by
  cases pendR with
  | some x =>
    have hx : some x = some r := h
    exact Option.some.inj hx ▸ hpend x rfl
  | none =>
    rcases fillRove_cases rove with
      ⟨h1, _, _⟩ | ⟨pre, m, rest, _, _, _, hm2, h1, _⟩
    · rw [fillR, h1] at h
      exact absurd h (by simp)
    · rw [fillR, h1] at h
      exact Option.some.inj h ▸ hm2

theorem fillB_log_pull (brate : Nat) (last lastBase : GpsTime)
    (pendB : Option Message) (base : List Message) :
    ∀ c ∈ (fillB brate last lastBase pendB base).2.2.2, c.1 = Site.pull := by
  cases pendB with
  | some x => simp [fillB]
  | none => exact fillBase_log brate last lastBase base

/-- Every message emitted by the merge loop has a kind in the
pass-through filter, and every `extract_gpstime` call made outside the
base pull loop is applied to a message whose kind is in the
pass-through filter. -/
theorem zip_inv_aux (brate fuel : Nat) :
    ∀ (base rove : List Message) (pendB pendR : Option Message)
      (last lastBase : GpsTime),
      (∀ x, pendB = some x → x.msg_type ∈ msgs_filter) →
      (∀ x, pendR = some x → x.msg_type ∈ msgs_filter) →
      (∀ m ∈ (zipGo brate fuel base rove pendB pendR last lastBase).1,
        m.msg_type ∈ msgs_filter) ∧
      (∀ c ∈ (zipGo brate fuel base rove pendB pendR last lastBase).2,
        c.1 = Site.pull ∨ c.2 ∈ msgs_filter) := by
  induction fuel with
  | zero =>
    intro base rove pendB pendR last lastBase _ _
    rw [zipGo_zero]
    simp
  | succ fuel ih =>
    intro base rove pendB pendR last lastBase hpB hpR
    cases hb1 : (fillB brate last lastBase pendB base).1 with
    | none =>
      cases hr1 : (fillR pendR rove).1 with
      | none =>
        rw [zipGo_succ_none_none brate fuel base rove pendB pendR last lastBase hb1 hr1]
        refine ⟨by simp, ?_⟩
        intro c hc
        exact Or.inl (fillB_log_pull brate last lastBase pendB base c hc)
      | some r =>
        have hrmem := fillR_some_mem pendR rove r hpR hr1
        rw [zipGo_succ_none_some brate fuel base rove pendB pendR last lastBase r hb1 hr1]
        have hrec := ih (fillB brate last lastBase pendB base).2.1 (fillR pendR rove).2
          none none last (fillB brate last lastBase pendB base).2.2.1
          (by intro x hx; cases hx) (by intro x hx; cases hx)
        constructor
        · intro m hm
          rcases hm with _ | hm
          · exact hrmem
          · exact hrec.1 m (by assumption)
        · intro c hc
          rcases List.mem_append.mp hc with hc | hc
          · exact Or.inl (fillB_log_pull brate last lastBase pendB base c hc)
          · exact hrec.2 c hc
    | some b =>
      have hbmem := fillB_some_mem brate last lastBase pendB base b hpB hb1
      cases hr1 : (fillR pendR rove).1 with
      | none =>
        rw [zipGo_succ_some_none brate fuel base rove pendB pendR last lastBase b hb1 hr1]
        have hrec := ih (fillB brate last lastBase pendB base).2.1 (fillR pendR rove).2
          none none last (fillB brate last lastBase pendB base).2.2.1
          (by intro x hx; cases hx) (by intro x hx; cases hx)
        constructor
        · intro m hm
          rcases hm with _ | hm
          · exact hbmem
          · exact hrec.1 m (by assumption)
        · intro c hc
          rcases List.mem_append.mp hc with hc | hc
          · exact Or.inl (fillB_log_pull brate last lastBase pendB base c hc)
          · exact hrec.2 c hc
      | some r =>
        have hrmem := fillR_some_mem pendR rove r hpR hr1
        by_cases hc : compare_gpstime ((extract_gpstime r last).getD (0, 0))
            ((extract_gpstime b last).getD (0, 0)) = 1
        · rw [zipGo_succ_emit_base brate fuel base rove pendB pendR last lastBase b r hb1 hr1 hc]
          have hrec := ih (fillB brate last lastBase pendB base).2.1 (fillR pendR rove).2
            none (some r) ((extract_gpstime b last).getD (0, 0))
            (fillB brate last lastBase pendB base).2.2.1
            (by intro x hx; cases hx)
            (fun x hx => Option.some.inj hx ▸ hrmem)
          constructor
          · intro m hm
            simp only [List.mem_cons] at hm
            rcases hm with hm | hm
            · subst hm; exact hbmem
            · exact hrec.1 m hm
          · intro cc hcc
            simp only [List.mem_append, List.mem_cons] at hcc
            rcases hcc with hcc | hcc | hcc | hcc
            · exact Or.inl (fillB_log_pull brate last lastBase pendB base cc hcc)
            · subst hcc; exact Or.inr hbmem
            · subst hcc; exact Or.inr hrmem
            · exact hrec.2 cc hcc
        · rw [zipGo_succ_emit_rove brate fuel base rove pendB pendR last lastBase b r hb1 hr1 hc]
          have hrec := ih (fillB brate last lastBase pendB base).2.1 (fillR pendR rove).2
            (some b) none ((extract_gpstime r last).getD (0, 0))
            (fillB brate last lastBase pendB base).2.2.1
            (fun x hx => Option.some.inj hx ▸ hbmem)
            (by intro x hx; cases hx)
          constructor
          · intro m hm
            simp only [List.mem_cons] at hm
            rcases hm with hm | hm
            · subst hm; exact hrmem
            · exact hrec.1 m hm
          · intro cc hcc
            simp only [List.mem_append, List.mem_cons] at hcc
            rcases hcc with hcc | hcc | hcc | hcc
            · exact Or.inl (fillB_log_pull brate last lastBase pendB base cc hcc)
            · subst hcc; exact Or.inr hbmem
            · subst hcc; exact Or.inr hrmem
            · exact hrec.2 cc hcc

/-! ### Simple comparator facts -/

theorem compare_gpstime_self (g : GpsTime) : compare_gpstime g g = 0 := by
  simp [compare_gpstime]

/-- C5.  `compare_gpstime_brate` returns `1` exactly when the current
time's week number exceeds the previous one's, or the week numbers
agree and the time of week is either exactly equal to the previous one
or at least `brate` past it; in every other case it returns `0`. -/
theorem compare_gpstime_brate_spec (g0 g1 : GpsTime) (brate : Nat) :
    (compare_gpstime_brate g0 g1 brate = 1 ↔
      (g1.1 < g0.1 ∨ (g0.1 = g1.1 ∧ (g0.2 = g1.2 ∨ g1.2 + brate ≤ g0.2)))) ∧
    (compare_gpstime_brate g0 g1 brate = 0 ∨ compare_gpstime_brate g0 g1 brate = 1) := by
  obtain ⟨a1, a2⟩ := g0
  obtain ⟨b1, b2⟩ := g1
  unfold compare_gpstime_brate
  constructor
  · split_ifs <;> simp_all <;> omega
  · split_ifs <;> simp

/-- C3.  Behavior of `extract_gpstime` on a message whose kind is in
none of the recognized sets: because the condition on line 100 ends in
the truthiness of the nonzero constant `ob.SBP_MSG_GLO_BIASES`, the
function returns the fallback `last_gpstime` instead of the `None`
described by the specification. -/
theorem extract_gpstime_unrecognized (t : GpsTime) :
    unkMsg.msg_type ∉ msgs_filter ∧
    unkMsg.msg_type ∉ msgs_filter_eph ∧
    unkMsg.msg_type ≠ SBP_MSG_OBS ∧
    unkMsg.msg_type ≠ SBP_MSG_OSR ∧
    unkMsg.msg_type ≠ SBP_MSG_IONO ∧
    unkMsg.msg_type ≠ SBP_MSG_BASE_POS_ECEF ∧
    unkMsg.msg_type ≠ SBP_MSG_BASE_POS_LLH ∧
    unkMsg.msg_type ≠ SBP_MSG_GLO_BIASES ∧
    extract_gpstime unkMsg t = some t := by
  refine ⟨by decide, by decide, by decide, by decide, by decide, by decide,
    by decide, by decide, ?_⟩
  rw [extract_gpstime, if_neg (by decide), if_neg (by decide), if_neg (by decide),
    if_pos (Or.inr (Or.inr (by decide)))]

/-- C9.  The log splitter sends exactly the sender-zero messages to the
base output and all the others to the rover output, preserving order
and losing no message; no kind-based filtering is involved. -/
theorem split_log_spec (msgs : List Message) :
    (split_log msgs).1 = msgs.filter (fun m => m.sender == 0) ∧
    (split_log msgs).2 = msgs.filter (fun m => !(m.sender == 0)) ∧
    (split_log msgs).1.length + (split_log msgs).2.length = msgs.length := by
  induction msgs with
  | nil => exact ⟨rfl, rfl, rfl⟩
  | cons m rest ih =>
    obtain ⟨ih1, ih2, ih3⟩ := ih
    by_cases h : m.sender = 0
    · refine ⟨?_, ?_, ?_⟩
      · simp [split_log, h, List.filter_cons, ih1]
      · simp [split_log, h, List.filter_cons, ih2]
      · simp [split_log, h]
        omega
    · refine ⟨?_, ?_, ?_⟩
      · simp [split_log, h, List.filter_cons, ih1]
      · simp [split_log, h, List.filter_cons, ih2]
      · simp [split_log, h]
        omega

/-- C4.  No emitted message has a kind outside the pass-through set,
and inputs containing only non-pass-through kinds produce an empty
output. -/
theorem zip_json_generators_filter (brate : Nat) (base rove : List Message) :
    (∀ m ∈ zip_json_generators brate base rove, m.msg_type ∈ msgs_filter) ∧
    ((∀ m ∈ base, m.msg_type ∉ msgs_filter) →
      (∀ m ∈ rove, m.msg_type ∉ msgs_filter) →
      zip_json_generators brate base rove = []) := by
  constructor
  · intro m hm
    rw [zip_json_generators] at hm
    exact (zip_inv_aux brate (base.length + rove.length + 1) base rove none none
      (0, 0) (0, 0) (fun x hx => by cases hx) (fun x hx => by cases hx)).1 m hm
  · intro hb hr
    have hbn : (fillB brate (0, 0) (0, 0) none base).1 = none := by
      rcases fillBase_cases brate (0, 0) (0, 0) base with
        ⟨h1, _, _, _⟩ | ⟨pre, m, rest, heq, _, hm1, _, _, _, _⟩
      · exact h1
      · exact absurd hm1 (hb m (by simp [heq]))
    have hrn : (fillR none rove).1 = none := by
      rcases fillRove_cases rove with
        ⟨h1, _, _⟩ | ⟨pre, m, rest, heq, _, _, hm2, _, _⟩
      · exact h1
      · exact absurd hm2 (hr m (by simp [heq]))
    rw [zip_json_generators,
      zipGo_succ_none_none brate (base.length + rove.length) base rove none none
        (0, 0) (0, 0) hbn hrn]

/-- Witness for C4: an observation passes through, and
unrecognized-kind-only inputs give empty output. -/
theorem zip_json_generators_filter_witness :
    (mkObs 1 5 0).msg_type ∈ msgs_filter ∧
    zip_json_generators 20 [unkMsg] [unkMsg] = [] :=
  ⟨(zip_json_generators_filter 20 [mkObs 1 5 7] []).1 (mkObs 1 5 0) (by decide),
   (zip_json_generators_filter 20 [unkMsg] [unkMsg]).2 (by decide) (by decide)⟩

/-- C10.  The QZSS ephemeris kind is timestamp-extractable (it is in
`msgs_filter_eph`) but is not in the pass-through set, so the zipper
never emits it. -/
theorem zip_qzss_never_emitted :
    SBP_MSG_EPHEMERIS_QZSS ∈ msgs_filter_eph ∧
    SBP_MSG_EPHEMERIS_QZSS ∉ msgs_filter ∧
    (∀ (m : Message) (t : GpsTime), m.msg_type = SBP_MSG_EPHEMERIS_QZSS →
      extract_gpstime m t = some m.commonToe) ∧
    (∀ (brate : Nat) (base rove : List Message),
      ∀ m ∈ zip_json_generators brate base rove,
        m.msg_type ≠ SBP_MSG_EPHEMERIS_QZSS) := by
  refine ⟨by decide, by decide, ?_, ?_⟩
  · intro m t hm
    have h1 : ¬(m.msg_type = SBP_MSG_OBS ∨ m.msg_type = SBP_MSG_OSR) := by
      rw [hm]; decide
    have h2 : m.msg_type ∈ msgs_filter_eph := by rw [hm]; decide
    rw [extract_gpstime, if_neg h1, if_pos h2]
  · intro brate base rove m hm hq
    rw [zip_json_generators] at hm
    have hmem := (zip_inv_aux brate (base.length + rove.length + 1) base rove none none
      (0, 0) (0, 0) (fun x hx => by cases hx) (fun x hx => by cases hx)).1 m hm
    rw [hq] at hmem
    exact absurd hmem (by decide)

/-- A QZSS ephemeris message used by the C10 witness. -/
def qzssMsg : Message :=
  { msg_type := SBP_MSG_EPHEMERIS_QZSS, sender := 2, headerT := (0, 0),
    commonToe := (5, 6), tNmct := (0, 0) }

/-- Witness for C10 at a concrete emitted message and a concrete QZSS
message. -/
theorem zip_qzss_never_emitted_witness :
    (mkObs 1 5 0).msg_type ≠ SBP_MSG_EPHEMERIS_QZSS ∧
    extract_gpstime qzssMsg (1, 2) = some qzssMsg.commonToe :=
  ⟨zip_qzss_never_emitted.2.2.2 20 [mkObs 1 5 7] [] (mkObs 1 5 0) (by decide),
   zip_qzss_never_emitted.2.2.1 qzssMsg (1, 2) rfl⟩

/-- C8 counterexample: pulling a base message of an unrecognized kind
does invoke `extract_gpstime` on it (at line 164, before the kind
filter is consulted), so extraction on a non-pass-through kind is
reachable inside the merge loop. -/
theorem zip_extract_unfiltered_counterexample :
    (Site.pull, 1234) ∈ zipCalls 20 [unkMsg] [] ∧ (1234 : Nat) ∉ msgs_filter :=
  ⟨by decide, by decide⟩

/-- C8 amended.  Inside the merge loop, `extract_gpstime` is applied to
a message of non-pass-through kind only at the base pull site (line
164, before the filter is consulted); the comparison step (lines
202-203) only ever extracts from messages whose kind passed the
filter.  Moreover extraction never takes its failure branch anywhere,
because the always-true condition of line 100 returns the fallback for
every unrecognized kind. -/
theorem zip_extract_sites (brate : Nat) (base rove : List Message) :
    (∀ c ∈ zipCalls brate base rove, c.1 = Site.pull ∨ c.2 ∈ msgs_filter) ∧
    (∀ (m : Message) (t : GpsTime), (extract_gpstime m t).isSome = true) := by
  constructor
  · intro c hc
    rw [zipCalls] at hc
    exact (zip_inv_aux brate (base.length + rove.length + 1) base rove none none
      (0, 0) (0, 0) (fun x hx => by cases hx) (fun x hx => by cases hx)).2 c hc
  · exact extract_gpstime_isSome

/-- Witness for C8's amended statement at the counterexample input. -/
theorem zip_extract_sites_witness :
    (Site.pull, (1234 : Nat)).1 = Site.pull ∨ (Site.pull, (1234 : Nat)).2 ∈ msgs_filter :=
  (zip_extract_sites 20 [unkMsg] []).1 (Site.pull, 1234) (by decide)

/-! ### Tie-break behavior -/

/-- C2 counterexample: on equal GPS times — including the all-zero
pair — `compare_gpstime` returns `0`, not `1`, and with one base and
one rover message of identical extracted time the zipper emits the
rover message (sender 9) first, then the base message. -/
theorem compare_tie_counterexample :
    compare_gpstime (0, 0) (0, 0) = 0 ∧
    compare_gpstime (1, 100) (1, 100) = 0 ∧
    zip_json_generators 20 [mkObs 1 100 7] [mkObs 1 100 9] =
      [mkObs 1 100 9, mkObs 1 100 0] :=
  ⟨rfl, rfl, by decide⟩

theorem extract_mkObs (w tow s : Nat) (c : GpsTime) :
    extract_gpstime (mkObs w tow s) c = some (w, tow) := by
  have h : (mkObs w tow s).msg_type = SBP_MSG_OBS ∨ (mkObs w tow s).msg_type = SBP_MSG_OSR :=
    Or.inl rfl
  rw [extract_gpstime, if_pos h]
  rfl

theorem obs_mem_filter : SBP_MSG_OBS ∈ msgs_filter := by decide

/-- C2 amended.  `compare_gpstime a b` returns index `0` (treating `a`,
the first argument, as the earlier one) whenever `a = b`, including
when both are `(0, 0)`; consequently, when the pending base and rover
messages have identical extracted GpsTime, the merge loop emits the
rover message first and the base message immediately after it. -/
theorem compare_tie_amended :
    (∀ g0 g1 : GpsTime, g0 = g1 → compare_gpstime g0 g1 = 0) ∧
    (∀ (brate w tow sb sr : Nat), 0 < w → sr ≠ 0 →
      zip_json_generators brate [mkObs w tow sb] [mkObs w tow sr] =
        [mkObs w tow sr, mkObs w tow 0]) := by
  constructor
  · intro g0 g1 h
    rw [h]
    exact compare_gpstime_self g1
  · intro brate w tow sb sr hw hsr
    have hbr : compare_gpstime_brate (w, tow) (0, 0) brate = 1 :=
      ((compare_gpstime_brate_spec (w, tow) (0, 0) brate).1).mpr (Or.inl hw)
    have hfb : fillB brate (0, 0) (0, 0) none [mkObs w tow sb] =
        (some (mkObs w tow 0), [], (w, tow), [(Site.pull, SBP_MSG_OBS)]) := by
      show fillBase brate (0, 0) (0, 0) [mkObs w tow sb] = _
      have hc : (mkObs w tow sb).msg_type ∈ msgs_filter ∧
          compare_gpstime_brate
            ((extract_gpstime (mkObs w tow sb) (0, 0)).getD (0, 0)) (0, 0) brate = 1 := by
        refine ⟨obs_mem_filter, ?_⟩
        rw [extract_mkObs, Option.getD_some]
        exact hbr
      rw [fillBase_cons, if_pos hc, extract_mkObs]
      rfl
    have hfr : fillR none [mkObs w tow sr] = (some (mkObs w tow sr), []) := by
      show fillRove [mkObs w tow sr] = _
      rw [fillRove_cons, if_pos ⟨hsr, obs_mem_filter⟩]
    have hcne : ¬ compare_gpstime
        ((extract_gpstime (mkObs w tow sr) (0, 0)).getD (0, 0))
        ((extract_gpstime (mkObs w tow sb) (0, 0)).getD (0, 0)) = 1 := by
      simp only [extract_mkObs, Option.getD_some, compare_gpstime_self]
      decide
    rw [zip_json_generators,
      show [mkObs w tow sb].length + [mkObs w tow sr].length = 2 from rfl,
      zipGo_succ_emit_rove brate 2 [mkObs w tow sb] [mkObs w tow sr] none none
        (0, 0) (0, 0) (mkObs w tow 0) (mkObs w tow sr)
        (by rw [hfb]) (by rw [hfr]) hcne]
    simp only [hfb, hfr, extract_mkObs, Option.getD_some]
    rw [show (2 : Nat) = 1 + 1 from rfl,
      zipGo_succ_some_none brate 1 [] [] (some (mkObs w tow 0)) none
        (w, tow) (w, tow) (mkObs w tow 0) rfl rfl]
    simp only [fillB, fillR, fillRove_nil]
    rw [show (1 : Nat) = 0 + 1 from rfl,
      zipGo_succ_none_none brate 0 [] [] none none (w, tow) (w, tow) rfl rfl]

/-- Witness for C2's amended statement at a concrete tie. -/
theorem compare_tie_amended_witness :
    compare_gpstime (2, 3) (2, 3) = 0 ∧
    zip_json_generators 5 [mkObs 1 9 4] [mkObs 1 9 8] =
      [mkObs 1 9 8, mkObs 1 9 0] :=
  ⟨compare_tie_amended.1 (2, 3) (2, 3) rfl,
   compare_tie_amended.2 5 1 9 4 8 (by decide) (by decide)⟩

/-! ### Runs with an empty or fully-rejected rover side -/

theorem baseKept_cons (brate : Nat) (last lastBase : GpsTime)
    (m : Message) (rest : List Message) :
    baseKept brate last lastBase (m :: rest) =
      if m.msg_type ∈ msgs_filter ∧
          compare_gpstime_brate ((extract_gpstime m last).getD (0, 0)) lastBase brate = 1 then
        m :: baseKept brate last ((extract_gpstime m last).getD (0, 0)) rest
      else
        baseKept brate last lastBase rest := rfl

theorem baseKept_all_reject (brate : Nat) (last lastBase : GpsTime)
    (l : List Message)
    (h : ∀ x ∈ l, ¬(x.msg_type ∈ msgs_filter ∧
      compare_gpstime_brate ((extract_gpstime x last).getD (0, 0)) lastBase brate = 1)) :
    baseKept brate last lastBase l = [] := by
  induction l with
  | nil => rfl
  | cons m rest ih =>
    rw [baseKept_cons, if_neg (h m (List.mem_cons_self m rest))]
    exact ih (fun x hx => h x (List.mem_cons_of_mem m hx))

theorem baseKept_drop_rejected (brate : Nat) (last lastBase : GpsTime)
    (pre l : List Message)
    (h : ∀ x ∈ pre, ¬(x.msg_type ∈ msgs_filter ∧
      compare_gpstime_brate ((extract_gpstime x last).getD (0, 0)) lastBase brate = 1)) :
    baseKept brate last lastBase (pre ++ l) = baseKept brate last lastBase l := by
  induction pre with
  | nil => rfl
  | cons m pre' ih =>
    rw [List.cons_append, baseKept_cons, if_neg (h m (List.mem_cons_self m pre'))]
    exact ih (fun x hx => h x (List.mem_cons_of_mem m hx))

theorem fillRove_all_reject (rove : List Message)
    (h : ∀ m ∈ rove, m.sender = 0 ∨ m.msg_type ∉ msgs_filter) :
    fillRove rove = (none, []) := by
  induction rove with
  | nil => rfl
  | cons m rest ih =>
    have hm : ¬(m.sender ≠ 0 ∧ m.msg_type ∈ msgs_filter) := by
      rcases h m (List.mem_cons_self m rest) with h1 | h1
      · exact fun hc => hc.1 h1
      · exact fun hc => h1 hc.2
    rw [fillRove_cons, if_neg hm]
    exact ih (fun x hx => h x (List.mem_cons_of_mem m hx))

/-- A merge run whose rover side never yields an acceptable message
emits exactly the base messages that pass the kind filter and the rate
gate, in order, each with its sender rewritten to `0`.  `last_gpstime`
stays at its initial value throughout, since only the comparison step
would advance it. -/
theorem zip_base_only_aux (brate fuel : Nat) :
    ∀ (base rove : List Message) (last lastBase : GpsTime),
      (∀ m ∈ rove, m.sender = 0 ∨ m.msg_type ∉ msgs_filter) →
      base.length < fuel →
      (zipGo brate fuel base rove none none last lastBase).1 =
        (baseKept brate last lastBase base).map (fun m => { m with sender := 0 }) := by
  induction fuel with
  | zero =>
    intro base rove last lastBase _ hlen
    exact absurd hlen (by omega)
  | succ fuel ih =>
    intro base rove last lastBase hrov hlen
    have hfr1 : (fillR none rove).1 = none := by
      show (fillRove rove).1 = none
      rw [fillRove_all_reject rove hrov]
    have hfr2 : (fillR none rove).2 = [] := by
      show (fillRove rove).2 = []
      rw [fillRove_all_reject rove hrov]
    rcases fillBase_cases brate last lastBase base with
      ⟨h1, _, _, hall⟩ | ⟨pre, m, rest, heq, hpre, hm1, hm2, h1, h2, h3⟩
    · rw [zipGo_succ_none_none brate fuel base rove none none last lastBase h1 hfr1,
        baseKept_all_reject brate last lastBase base hall]
      rfl
    · rw [zipGo_succ_some_none brate fuel base rove none none last lastBase
        { m with sender := 0 } h1 hfr1]
      rw [show (fillB brate last lastBase none base).2.1 = rest from h2,
        show (fillB brate last lastBase none base).2.2.1 =
          (extract_gpstime m last).getD (0, 0) from h3, hfr2]
      have hrest : rest.length < fuel := by
        rw [heq] at hlen
        simp only [List.length_append, List.length_cons] at hlen
        omega
      rw [ih rest [] last ((extract_gpstime m last).getD (0, 0)) (by simp) hrest]
      rw [heq, baseKept_drop_rejected brate last lastBase pre (m :: rest) hpre,
        baseKept_cons, if_pos ⟨hm1, hm2⟩]
      rfl

/-- C7.  If the rover source yields no accepted message (every rover
message has sender `0` or a non-pass-through kind), the output is
exactly the base messages that pass the kind filter and the rate gate,
in their original order, each with sender rewritten to `0`. -/
theorem zip_rover_empty (brate : Nat) (base rove : List Message)
    (h : ∀ m ∈ rove, m.sender = 0 ∨ m.msg_type ∉ msgs_filter) :
    zip_json_generators brate base rove =
      (baseKept brate (0, 0) (0, 0) base).map (fun m => { m with sender := 0 }) ∧
    ∀ m ∈ zip_json_generators brate base rove, m.sender = 0 := by
  have h1 := zip_base_only_aux brate (base.length + rove.length + 1) base rove
    (0, 0) (0, 0) h (by omega)
  constructor
  · rw [zip_json_generators]
    exact h1
  · intro m hm
    rw [zip_json_generators] at hm
    rw [h1] at hm
    obtain ⟨x, _, hx⟩ := List.mem_map.mp hm
    rw [← hx]

/-- Witness for C7: a one-message base log with an all-rejected rover
log. -/
theorem zip_rover_empty_witness :
    zip_json_generators 20 [mkObs 1 5 7] [mkObs 1 9 0] =
      (baseKept 20 (0, 0) (0, 0) [mkObs 1 5 7]).map (fun m => { m with sender := 0 }) ∧
    (mkObs 1 5 0).sender = 0 :=
  ⟨(zip_rover_empty 20 [mkObs 1 5 7] [mkObs 1 9 0] (by decide)).1,
   (zip_rover_empty 20 [mkObs 1 5 7] [mkObs 1 9 0] (by decide)).2 (mkObs 1 5 0) (by decide)⟩

/-! ### Rate gating on an evenly spaced observation stream -/

theorem gate20_reject (w a b : Nat) (h1 : a ≠ b) (h2 : a < b + 20) :
    ¬ compare_gpstime_brate (w, a) (w, b) 20 = 1 := by
  intro hc
  rcases ((compare_gpstime_brate_spec (w, a) (w, b) 20).1).mp hc with h | ⟨_, h | h⟩
  · exact absurd h (lt_irrefl w)
  · exact h1 h
  · exact absurd (show b + 20 ≤ a from h) (by omega)

theorem gate20_accept (w a b : Nat) (h : a = b ∨ b + 20 ≤ a) :
    compare_gpstime_brate (w, a) (w, b) 20 = 1 :=
  ((compare_gpstime_brate_spec (w, a) (w, b) 20).1).mpr (Or.inr ⟨rfl, h⟩)

theorem gate20_first (w : Nat) : compare_gpstime_brate (w, 0) (0, 0) 20 = 1 :=
  ((compare_gpstime_brate_spec (w, 0) (0, 0) 20).1).mpr
    (by show 0 < w ∨ (w = 0 ∧ (0 = 0 ∨ 0 + 20 ≤ 0)); omega)

theorem mkObs_reject (w s a b : Nat) (h1 : a ≠ b) (h2 : a < b + 20) :
    ¬((mkObs w a s).msg_type ∈ msgs_filter ∧
      compare_gpstime_brate ((extract_gpstime (mkObs w a s) (0, 0)).getD (0, 0))
        (w, b) 20 = 1) := by
  intro hc
  rw [extract_mkObs, Option.getD_some] at hc
  exact gate20_reject w a b h1 h2 hc.2

theorem mkObs_accept (w s a b : Nat) (h : a = b ∨ b + 20 ≤ a) :
    (mkObs w a s).msg_type ∈ msgs_filter ∧
      compare_gpstime_brate ((extract_gpstime (mkObs w a s) (0, 0)).getD (0, 0))
        (w, b) 20 = 1 := by
  refine ⟨obs_mem_filter, ?_⟩
  rw [extract_mkObs, Option.getD_some]
  exact gate20_accept w a b h

/-- The gate with separation 20 over observations at times
`5 i` for `i` in `[4 k + 1, 4 k + n)`, starting from last accepted time
`20 k`: exactly the multiples of 20 survive. -/
theorem baseKept_gate_seq (w s : Nat) :
    ∀ n k, baseKept 20 (0, 0) (w, 20 * k)
        ((List.range' (4 * k + 1) n).map (fun i => mkObs w (5 * i) s)) =
      (List.range' (k + 1) (n / 4)).map (fun j => mkObs w (20 * j) s) := by
  intro n
  induction n using Nat.strong_induction_on with
  | _ n ih =>
    intro k
    by_cases hn : n < 4
    · rw [Nat.div_eq_of_lt hn]
      rw [baseKept_all_reject 20 (0, 0) (w, 20 * k) _ ?_]
      · rfl
      · intro x hx
        obtain ⟨i, hi, rfl⟩ := List.mem_map.mp hx
        have hib := List.mem_range'_1.mp hi
        exact mkObs_reject w s (5 * i) (20 * k) (by omega) (by omega)
    · obtain ⟨m, rfl⟩ : ∃ m, n = m + 4 := ⟨n - 4, by omega⟩
      rw [show m + 4 = m + 3 + 1 from rfl, List.range'_succ,
        show m + 3 = m + 2 + 1 from rfl, List.range'_succ,
        show m + 2 = m + 1 + 1 from rfl, List.range'_succ,
        List.range'_succ]
      simp only [List.map_cons]
      rw [baseKept_cons, if_neg (mkObs_reject w s (5 * (4 * k + 1)) (20 * k)
        (by omega) (by omega))]
      rw [baseKept_cons, if_neg (mkObs_reject w s (5 * (4 * k + 1 + 1)) (20 * k)
        (by omega) (by omega))]
      rw [baseKept_cons, if_neg (mkObs_reject w s (5 * (4 * k + 1 + 1 + 1)) (20 * k)
        (by omega) (by omega))]
      rw [baseKept_cons, if_pos (mkObs_accept w s (5 * (4 * k + 1 + 1 + 1 + 1)) (20 * k)
        (by omega))]
      rw [extract_mkObs, Option.getD_some]
      rw [show (5 * (4 * k + 1 + 1 + 1 + 1) : Nat) = 20 * (k + 1) from by omega]
      rw [show (4 * k + 1 + 1 + 1 + 1 + 1 : Nat) = 4 * (k + 1) + 1 from by omega]
      rw [ih m (by omega) (k + 1)]
      rw [show (m + 4) / 4 = m / 4 + 1 from by omega, List.range'_succ]
      rfl

theorem mkObs_first_accept (w s : Nat) :
    (mkObs w 0 s).msg_type ∈ msgs_filter ∧
      compare_gpstime_brate ((extract_gpstime (mkObs w 0 s) (0, 0)).getD (0, 0))
        (0, 0) 20 = 1 := by
  refine ⟨obs_mem_filter, ?_⟩
  rw [extract_mkObs, Option.getD_some]
  exact gate20_first w

/-- C6.  On a base stream of observation messages in one week at times
of week `0, 5, 10, 15, 20, ...` with minimum separation `20` and no
rover input, the zipper emits exactly the observations at times
`0, 20, 40, ...`. -/
theorem zip_rate_gate (n w s : Nat) :
    zip_json_generators 20 ((List.range n).map (fun i => mkObs w (5 * i) s)) [] =
      (List.range ((n + 3) / 4)).map (fun j => mkObs w (20 * j) 0) := by
  rw [(zip_rover_empty 20 _ [] (by simp)).1]
  have hmain : baseKept 20 (0, 0) (0, 0)
      ((List.range n).map (fun i => mkObs w (5 * i) s)) =
      (List.range ((n + 3) / 4)).map (fun j => mkObs w (20 * j) s) := by
    cases n with
    | zero => rfl
    | succ m =>
      rw [List.range_eq_range', List.range'_succ]
      simp only [List.map_cons]
      rw [show (5 * 0 : Nat) = 0 from rfl]
      rw [baseKept_cons, if_pos (mkObs_first_accept w s), extract_mkObs, Option.getD_some]
      have h0 := baseKept_gate_seq w s m 0
      rw [show (20 * 0 : Nat) = 0 from rfl, show (4 * 0 + 1 : Nat) = 0 + 1 from rfl] at h0
      rw [h0]
      rw [show (m + 1 + 3) / 4 = m / 4 + 1 from by omega,
        List.range_eq_range', List.range'_succ]
      simp only [List.map_cons]
  rw [hmain, List.map_map]
  rfl
